import Mathlib

/-!
Shallow embedding of the text-rendering core of `pyglet` (files
`pyglet/font/__init__.py` and `pyglet/text/caret.py`), together with
theorems settling the specification claims about it.

Conventions of the embedding:
* Pixel quantities (advances, widths, coordinates) are modelled as `Int`.
  The source uses Python numbers; the claims under study are about index
  arithmetic and comparisons, which are unchanged by this choice.
* Python `list[i]` indexing (which wraps negative indices and raises
  `IndexError` out of range) is modelled by `pyGet`, returning `Option Int`
  (`none` = `IndexError`).
* OpenGL calls are modelled by the data they would receive (packed vertex
  arrays, draw-call ranges); the GL state machine itself is out of scope.
-/

namespace Pyglet

/-- A shaped glyph as consumed by `GlyphString.__init__`: an advance, the
owning texture (modelled by an identifier), the two corner offsets
`vertices[0..3]` (x1, y1, x2, y2 relative to the pen) and four texture
coordinates `tex_coords[0..3]`. -/
structure Glyph where
  advance : Int
  owner : Nat
  v0 : Int
  v1 : Int
  v2 : Int
  v3 : Int
  t0 : Int × Int
  t1 : Int × Int
  t2 : Int × Int
  t3 : Int × Int
deriving DecidableEq

/-- One entry of `GlyphString.states`: a contiguous run of glyphs sharing a
texture, `(state_from, state_length, texture)`.  `tex = none` models the
Python `None` the accumulator starts from. -/
structure TexRun where
  start : Nat
  len : Nat
  tex : Option Nat
deriving DecidableEq

/-- The 20 floats appended to the interleaved array for one glyph at pen
position `(x, y)` (source lines 129-136: four `(u, v, x, y, 0)` vertices). -/
def glyphQuad (x y : Int) (g : Glyph) : List Int :=
  [g.t0.1, g.t0.2, x + g.v0, y + g.v1, 0,
   g.t1.1, g.t1.2, x + g.v2, y + g.v1, 0,
   g.t2.1, g.t2.2, x + g.v2, y + g.v3, 0,
   g.t3.1, g.t3.2, x + g.v0, y + g.v3, 0]

/-- The loop of `GlyphString.__init__` (source lines 121-139), written so the
outputs produced from the current iteration on are returned: interleaved
array suffix, texture runs still to be emitted (including the final
unconditional `states.append`), cumulative advances, and the final pen x.
Arguments mirror the Python loop state: remaining glyphs, pen `x`, current
`texture`, `state_from`, `state_length`, and the loop index `i`. -/
def buildLoop (y : Int) : List Glyph → Int → Option Nat → Nat → Nat → Nat →
    List Int × List TexRun × List Int × Int
  | [], x, texture, state_from, state_length, _ =>
      ([], [⟨state_from, state_length, texture⟩], [], x)
  | g :: gs, x, texture, state_from, state_length, i =>
      if some g.owner ≠ texture then
        if state_length ≠ 0 then
          let r := buildLoop y gs (x + g.advance) (some g.owner) i 1 (i + 1)
          (glyphQuad x y g ++ r.1, ⟨state_from, state_length, texture⟩ :: r.2.1,
            (x + g.advance) :: r.2.2.1, r.2.2.2)
        else
          let r := buildLoop y gs (x + g.advance) (some g.owner) i 1 (i + 1)
          (glyphQuad x y g ++ r.1, r.2.1, (x + g.advance) :: r.2.2.1, r.2.2.2)
      else
        let r := buildLoop y gs (x + g.advance) texture state_from (state_length + 1) (i + 1)
        (glyphQuad x y g ++ r.1, r.2.1, (x + g.advance) :: r.2.2.1, r.2.2.2)

/-- The state of a constructed `GlyphString`. -/
structure GlyphString where
  text : List Char
  array : List Int
  states : List TexRun
  cumulative_advance : List Int
  width : Int
deriving DecidableEq

/-- `GlyphString.__init__(text, glyphs, x, y)` (source lines 91-142). -/
def GlyphString.init (text : List Char) (glyphs : List Glyph) (x y : Int) : GlyphString :=
  let r := buildLoop y glyphs x none 0 0 0
  { text := text, array := r.1, states := r.2.1,
    cumulative_advance := r.2.2.1, width := r.2.2.2 }

/-- Python list indexing `l[i]`: negative indices wrap from the end, out of
range raises `IndexError` (= `none`). -/
def pyGet (l : List Int) (i : Int) : Option Int :=
  if 0 ≤ i then l.get? i.toNat
  else if 0 ≤ (l.length : Int) + i then l.get? ((l.length : Int) + i).toNat
  else none

/-- `GlyphString.get_subwidth(from_index, to_index)` (source lines 181-195):
`width = self.cumulative_advance[to_index-1]`, and if `from_index` is
truthy (non-zero) subtract `self.cumulative_advance[from_index-1]`. -/
def GlyphString.get_subwidth (gs : GlyphString) (from_index to_index : Int) : Option Int := do
  let w ← pyGet gs.cumulative_advance (to_index - 1)
  if from_index ≠ 0 then
    let w' ← pyGet gs.cumulative_advance (from_index - 1)
    pure (w - w')
  else
    pure w

/-- The `for` loop of `get_break_index` (source lines 170-179) over the
zipped `(character, cumulative advance)` pairs.  `pos` is the absolute index
`i + from_index` of the current pair, `to_index` the best break found so
far.  The zero-width-space is `'​'`. -/
def breakLoop (width : Int) : List (Char × Int) → Nat → Nat → Nat
  | [], _, to_index => to_index
  | (c, w) :: rest, pos, to_index =>
      if width < w then to_index
      else if c = '\n' then pos + 1
      else if c = ' ' ∨ c = Char.ofNat 0x200b then breakLoop width rest (pos + 1) (pos + 1)
      else breakLoop width rest (pos + 1) to_index

/-- `GlyphString.get_break_index(from_index, width)` (source lines 144-179).
The `cumulative_advance[from_index-1]` access uses `getD`; under the
constructor invariant `len(cumulative_advance) = len(text)` the index
`from_index - 1` is always in range in the branch that reads it, so the
default is never produced. -/
def GlyphString.get_break_index (gs : GlyphString) (from_index : Nat) (width : Int) : Nat :=
  if gs.text.length ≤ from_index then from_index
  else
    let width' :=
      if from_index ≠ 0 then width + gs.cumulative_advance.getD (from_index - 1) 0
      else width
    breakLoop width' (List.zip (gs.text.drop from_index)
      (gs.cumulative_advance.drop from_index)) from_index from_index

/-- The cumulative-advance list the constructor loop produces, in isolation:
each glyph appends the pen position after its advance. -/
def buildCumul (x : Int) : List Glyph → List Int
  | [] => []
  | g :: gs => (x + g.advance) :: buildCumul (x + g.advance) gs

/-- The interleaved vertex array the constructor loop produces, in
isolation. -/
def buildArr (x y : Int) : List Glyph → List Int
  | [] => []
  | g :: gs => glyphQuad x y g ++ buildArr (x + g.advance) y gs

theorem buildLoop_cum (y : Int) (gs : List Glyph) :
    ∀ x texture state_from state_length i,
      (buildLoop y gs x texture state_from state_length i).2.2.1 = buildCumul x gs := by
  induction gs with
  | nil => intro x texture sf sl i; simp [buildLoop, buildCumul]
  | cons g gs ih =>
    intro x texture sf sl i
    simp only [buildLoop, buildCumul]
    split_ifs <;> simp [ih]

theorem buildLoop_arr (y : Int) (gs : List Glyph) :
    ∀ x texture state_from state_length i,
      (buildLoop y gs x texture state_from state_length i).1 = buildArr x y gs := by
  induction gs with
  | nil => intro x texture sf sl i; simp [buildLoop, buildArr]
  | cons g gs ih =>
    intro x texture sf sl i
    simp only [buildLoop, buildArr]
    split_ifs <;> simp [ih]

theorem buildLoop_width (y : Int) (gs : List Glyph) :
    ∀ x texture state_from state_length i,
      (buildLoop y gs x texture state_from state_length i).2.2.2
        = x + (gs.map Glyph.advance).sum := by
  induction gs with
  | nil => intro x texture sf sl i; simp [buildLoop]
  | cons g gs ih =>
    intro x texture sf sl i
    simp only [buildLoop, List.map_cons, List.sum_cons]
    split_ifs <;> simp [ih] <;> ring

/-- The glyph-index ranges of the emitted texture runs concatenate to the
interval `[state_from, i + gs.length)`, provided the pending run abuts the
loop index (`state_from + state_length = i`). -/
theorem buildLoop_states_join (y : Int) (gs : List Glyph) :
    ∀ x texture state_from state_length i, state_from + state_length = i →
      ((buildLoop y gs x texture state_from state_length i).2.1.map
          (fun r => List.range' r.start r.len)).flatten
        = List.range' state_from (state_length + gs.length) := by
  induction gs with
  | nil =>
    intro x texture sf sl i _
    simp [buildLoop]
  | cons g gs ih =>
    intro x texture sf sl i h
    simp only [buildLoop, List.length_cons]
    split_ifs with h1 h2
    · have := ih (x + g.advance) (some g.owner) i 1 (i + 1) rfl
      simp only [List.map_cons, List.flatten_cons, this]
      rw [← h, List.range'_append_1]
      congr 1
      omega
    · have hsl : sl = 0 := by omega
      have hsf : sf = i := by omega
      have := ih (x + g.advance) (some g.owner) i 1 (i + 1) rfl
      simp only [this, hsl, hsf]
      congr 1
      omega
    · have := ih (x + g.advance) texture sf (sl + 1) (i + 1) (by omega)
      simp only [this]
      congr 1
      omega

theorem buildCumul_length (gs : List Glyph) :
    ∀ x, (buildCumul x gs).length = gs.length := by
  induction gs with
  | nil => intro x; simp [buildCumul]
  | cons g gs ih => intro x; simp [buildCumul, ih]

theorem buildCumul_chain (gs : List Glyph) (hadv : ∀ g ∈ gs, 0 ≤ g.advance) :
    ∀ x, List.Chain' (· ≤ ·) (buildCumul x gs) ∧
      ∀ h ∈ (buildCumul x gs).head?, x ≤ h := by
  induction gs with
  | nil => intro x; simp [buildCumul]
  | cons g gs ih =>
    intro x
    have hg : 0 ≤ g.advance := hadv g (List.mem_cons_self g gs)
    have ih' := ih (fun g' hg' => hadv g' (List.mem_cons_of_mem g hg')) (x + g.advance)
    constructor
    · refine List.chain'_cons'.mpr ⟨?_, ih'.1⟩
      intro h hh
      exact le_trans (by omega) (ih'.2 h hh)
    · intro h hh
      simp [buildCumul] at hh
      omega

theorem buildCumul_getLast (gs : List Glyph) (hne : gs ≠ []) :
    ∀ x, (buildCumul x gs).getLast? = some (x + (gs.map Glyph.advance).sum) := by
  induction gs with
  | nil => exact absurd rfl hne
  | cons g gs ih =>
    intro x
    cases gs with
    | nil => simp [buildCumul]
    | cons g' gs' =>
      have h2 := ih (by simp) (x + g.advance)
      have hc : buildCumul x (g :: g' :: gs')
          = (x + g.advance) :: buildCumul (x + g.advance) (g' :: gs') := rfl
      have hc2 : buildCumul (x + g.advance) (g' :: gs')
          = (x + g.advance + g'.advance)
              :: buildCumul (x + g.advance + g'.advance) gs' := rfl
      rw [hc, hc2, List.getLast?_cons_cons, ← hc2, h2]
      simp only [List.map_cons, List.sum_cons]
      congr 1
      ring

theorem buildArr_length (gs : List Glyph) :
    ∀ x y, (buildArr x y gs).length = 20 * gs.length := by
  induction gs with
  | nil => intro x y; simp [buildArr]
  | cons g gs ih =>
    intro x y
    simp [buildArr, glyphQuad, ih]
    ring

/-- Case analysis of `breakLoop`: the result is either the incoming
`to_index`, or lies just past a pair whose cumulative advance fits within
`width` and whose character is a newline, a space or a zero-width space. -/
theorem breakLoop_spec (width : Int) :
    ∀ (pairs : List (Char × Int)) (pos t0 : Nat),
      breakLoop width pairs pos t0 = t0 ∨
      ∃ j, ∃ hj : j < pairs.length,
        breakLoop width pairs pos t0 = pos + j + 1 ∧
        (pairs.get ⟨j, hj⟩).2 ≤ width ∧
        ((pairs.get ⟨j, hj⟩).1 = '\n' ∨ (pairs.get ⟨j, hj⟩).1 = ' ' ∨
          (pairs.get ⟨j, hj⟩).1 = Char.ofNat 0x200b) := by
  intro pairs
  induction pairs with
  | nil => intro pos t0; left; rfl
  | cons p rest ih =>
    intro pos t0
    obtain ⟨c, w⟩ := p
    by_cases hw : width < w
    · left
      simp [breakLoop, hw]
    · by_cases hn : c = '\n'
      · right
        refine ⟨0, by simp, ?_, ?_, ?_⟩
        · simp [breakLoop, hw, hn]
        · simpa using not_lt.mp hw
        · simp [hn]
      · by_cases hs : c = ' ' ∨ c = Char.ofNat 0x200b
        · have hrec : breakLoop width ((c, w) :: rest) pos t0
              = breakLoop width rest (pos + 1) (pos + 1) := by
            simp [breakLoop, hw, hn, hs]
          rcases ih (pos + 1) (pos + 1) with h | ⟨j, hj, he, hle, hc⟩
          · right
            refine ⟨0, by simp, ?_, ?_, ?_⟩
            · rw [hrec, h]
            · simpa using not_lt.mp hw
            · simpa using Or.inr hs
          · right
            refine ⟨j + 1, by simpa using hj, ?_, ?_, ?_⟩
            · rw [hrec, he]; omega
            · simpa using hle
            · simpa using hc
        · have hrec : breakLoop width ((c, w) :: rest) pos t0
              = breakLoop width rest (pos + 1) t0 := by
            simp [breakLoop, hw, hn, hs]
          rcases ih (pos + 1) t0 with h | ⟨j, hj, he, hle, hc⟩
          · left
            rw [hrec, h]
          · right
            refine ⟨j + 1, by simpa using hj, ?_, ?_, ?_⟩
            · rw [hrec, he]; omega
            · simpa using hle
            · simpa using hc

/-- Case analysis of `get_break_index` on a `GlyphString` whose
cumulative-advance table has one entry per character: a result different
from `from_index` lies just past a whitespace/zero-width-space/newline whose
cumulative advance fits within the (shifted) width budget. -/
theorem get_break_index_spec (gs : GlyphString) (i : Nat) (W : Int)
    (hlen : gs.cumulative_advance.length = gs.text.length)
    (hne : gs.get_break_index i W ≠ i) :
    ∃ j, i + j < gs.text.length ∧
      gs.get_break_index i W = i + j + 1 ∧
      (∃ c, gs.text.get? (i + j) = some c ∧
        (c = '\n' ∨ c = ' ' ∨ c = Char.ofNat 0x200b)) ∧
      ∃ w, gs.cumulative_advance.get? (i + j) = some w ∧
        w ≤ W + (if i ≠ 0 then gs.cumulative_advance.getD (i - 1) 0 else 0) := by
  by_cases hi : gs.text.length ≤ i
  · exact absurd (by simp [GlyphString.get_break_index, hi]) hne
  · have hdef : gs.get_break_index i W
        = breakLoop (if i ≠ 0 then W + gs.cumulative_advance.getD (i - 1) 0 else W)
            (List.zip (gs.text.drop i) (gs.cumulative_advance.drop i)) i i := by
      simp only [GlyphString.get_break_index, hi, if_false]
    rcases breakLoop_spec
        (if i ≠ 0 then W + gs.cumulative_advance.getD (i - 1) 0 else W)
        (List.zip (gs.text.drop i) (gs.cumulative_advance.drop i)) i i with
      h | ⟨j, hj, he, hle, hc⟩
    · exact absurd (hdef.trans h) hne
    · have hzlen : (List.zip (gs.text.drop i) (gs.cumulative_advance.drop i)).length
          = gs.text.length - i := by
        simp [List.length_zip, hlen]
      have hjlt : i + j < gs.text.length := by omega
      have hclt : i + j < gs.cumulative_advance.length := by omega
      have hget := @List.get_zip Char Int (gs.text.drop i)
          (gs.cumulative_advance.drop i) ⟨j, hj⟩
      rw [hget] at hc hle
      simp only [List.get_eq_getElem, List.getElem_drop] at hc hle
      refine ⟨j, hjlt, hdef.trans he, ?_, ?_⟩
      · refine ⟨gs.text.get ⟨i + j, hjlt⟩, List.get?_eq_get hjlt, ?_⟩
        simpa [List.get_eq_getElem] using hc
      · refine ⟨gs.cumulative_advance.get ⟨i + j, hclt⟩, List.get?_eq_get hclt, ?_⟩
        simp only [List.get_eq_getElem]
        split_ifs at hle ⊢ with h0
        · omega
        · omega

/-- Evaluation of `get_subwidth` at in-range natural indices with
`1 ≤ to_index`. -/
theorem get_subwidth_eval (gs : GlyphString) (i r : Nat) (w : Int)
    (hr : gs.cumulative_advance.get? (r - 1) = some w) (hr1 : 1 ≤ r)
    (hi : i ≠ 0 → i - 1 < gs.cumulative_advance.length) :
    gs.get_subwidth (i : Int) (r : Int) =
      some (w - if i ≠ 0 then gs.cumulative_advance.getD (i - 1) 0 else 0) := by
  have h1 : pyGet gs.cumulative_advance ((r : Int) - 1) = some w := by
    have h0 : (0 : Int) ≤ (r : Int) - 1 := by omega
    have ht : ((r : Int) - 1).toNat = r - 1 := by omega
    simp [pyGet, h0, ht, ← List.get?_eq_getElem?, hr]
  by_cases hiz : i = 0
  · subst hiz
    simp [GlyphString.get_subwidth, h1]
  · have hlt := hi hiz
    obtain ⟨v, hv⟩ : ∃ v, gs.cumulative_advance.get? (i - 1) = some v :=
      ⟨_, List.get?_eq_get hlt⟩
    have h2 : pyGet gs.cumulative_advance ((i : Int) - 1) = some v := by
      have h0 : (0 : Int) ≤ (i : Int) - 1 := by omega
      have ht : ((i : Int) - 1).toNat = i - 1 := by omega
      simp [pyGet, h0, ht, ← List.get?_eq_getElem?, hv]
    have hgd : gs.cumulative_advance.getD (i - 1) 0 = v := by
      simp [List.getD_eq_getElem?_getD, ← List.get?_eq_getElem?, hv]
    have hne : ((i : Int)) ≠ 0 := by omega
    simp [GlyphString.get_subwidth, h1, h2, hne, hiz, hgd, ← List.get?_eq_getElem?, hv]

theorem init_cum (text : List Char) (glyphs : List Glyph) (x y : Int) :
    (GlyphString.init text glyphs x y).cumulative_advance = buildCumul x glyphs :=
  buildLoop_cum y glyphs x none 0 0 0

theorem init_width (text : List Char) (glyphs : List Glyph) (x y : Int) :
    (GlyphString.init text glyphs x y).width = x + (glyphs.map Glyph.advance).sum :=
  buildLoop_width y glyphs x none 0 0 0

theorem init_cum_length (text : List Char) (glyphs : List Glyph) (x y : Int) :
    (GlyphString.init text glyphs x y).cumulative_advance.length = glyphs.length := by
  rw [init_cum, buildCumul_length]

/-- The last cumulative advance, read through `get?`, is the final pen
position. -/
theorem cum_last_get? (glyphs : List Glyph) (x : Int) (hne : glyphs ≠ []) :
    (buildCumul x glyphs).get? (glyphs.length - 1)
      = some (x + (glyphs.map Glyph.advance).sum) := by
  have h1 := buildCumul_getLast glyphs hne x
  rw [List.getLast?_eq_get?, buildCumul_length] at h1
  exact h1

/-- C1: `get_break_index(i, W)` never returns an index `j > i` whose
substring width from `i` (measured through `get_subwidth`, i.e. the
cumulative-advance table) exceeds `W`; when it cannot find such a break it
returns `i` itself.  Stated for any `GlyphString` satisfying the
constructor invariant `len(cumulative_advance) = len(text)`. -/
theorem break_index_fits_within_width (gs : GlyphString) (i : Nat) (W : Int)
    (hlen : gs.cumulative_advance.length = gs.text.length)
    (hne : gs.get_break_index i W ≠ i) :
    ∃ v, gs.get_subwidth (i : Int) (gs.get_break_index i W : Int) = some v ∧ v ≤ W := by
  obtain ⟨j, hjlt, he, _, w, hw, hwle⟩ := get_break_index_spec gs i W hlen hne
  have hi : i ≠ 0 → i - 1 < gs.cumulative_advance.length := by omega
  have hr : gs.cumulative_advance.get? (gs.get_break_index i W - 1) = some w := by
    rw [he]
    simpa using hw
  have h1 : (1 : Nat) ≤ gs.get_break_index i W := by omega
  refine ⟨w - (if i ≠ 0 then gs.cumulative_advance.getD (i - 1) 0 else 0), ?_, ?_⟩
  · exact get_subwidth_eval gs i (gs.get_break_index i W) w hr h1 hi
  · split_ifs at hwle ⊢ <;> omega

/-- Concrete instance of `break_index_fits_within_width`: "a b" with
advance 10 per glyph; the break index for width 100 is 2 (after the space)
and the substring width 20 is within 100. -/
def gsSpaceB : GlyphString :=
  GlyphString.init ['a', ' ', 'b']
    [⟨10, 0, 0, 0, 5, 5, (0, 0), (0, 1), (1, 1), (1, 0)⟩,
     ⟨10, 0, 0, 0, 5, 5, (0, 0), (0, 1), (1, 1), (1, 0)⟩,
     ⟨10, 0, 0, 0, 5, 5, (0, 0), (0, 1), (1, 1), (1, 0)⟩] 0 0

theorem break_index_fits_within_width_witness :
    gsSpaceB.cumulative_advance.length = gsSpaceB.text.length ∧
    gsSpaceB.get_break_index 0 100 ≠ 0 ∧
    ∃ v, gsSpaceB.get_subwidth ((0 : Nat) : Int) ((gsSpaceB.get_break_index 0 100 : Nat) : Int)
        = some v ∧ v ≤ 100 :=
  ⟨by decide, by decide,
    break_index_fits_within_width gsSpaceB 0 100 (by decide) (by decide)⟩

/-- "abcd", advance 10 per glyph, one texture: every index fits in width
100, yet `get_break_index(0, 100)` returns 0, not the largest fitting
index 4.  This refutes C2's "largest index" contract. -/
def gsNoSpace : GlyphString :=
  GlyphString.init ['a', 'b', 'c', 'd']
    [⟨10, 0, 0, 0, 5, 5, (0, 0), (0, 1), (1, 1), (1, 0)⟩,
     ⟨10, 0, 0, 0, 5, 5, (0, 0), (0, 1), (1, 1), (1, 0)⟩,
     ⟨10, 0, 0, 0, 5, 5, (0, 0), (0, 1), (1, 1), (1, 0)⟩,
     ⟨10, 0, 0, 0, 5, 5, (0, 0), (0, 1), (1, 1), (1, 0)⟩] 0 0

/-- C2 counterexample: the entire remaining text of `gsNoSpace` fits within
width 100 (`get_subwidth(0,4) = 40 ≤ 100`, 4 = len(text)), but
`get_break_index(0, 100)` returns 0, not the largest fitting index 4. -/
theorem break_index_not_largest_fitting :
    gsNoSpace.get_break_index 0 100 = 0 ∧
    gsNoSpace.text.length = 4 ∧
    gsNoSpace.get_subwidth 0 4 = some 40 ∧ (40 : Int) ≤ 100 := by decide

/-- C2 amended: `get_break_index(i, W)` returns `i` unchanged when
`i ≥ len(text)`; otherwise it returns either `i` (no usable breakpoint) or
an index `r` with `i < r ≤ len(text)` placed just after a newline, space or
zero-width space whose substring width from `i` fits within `W`.  When the
whole remainder fits it still breaks after the last whitespace rather than
returning the largest fitting index. -/
theorem break_index_amended (gs : GlyphString) (i : Nat) (W : Int)
    (hlen : gs.cumulative_advance.length = gs.text.length) :
    (gs.text.length ≤ i → gs.get_break_index i W = i) ∧
    (gs.get_break_index i W ≠ i →
      i < gs.get_break_index i W ∧ gs.get_break_index i W ≤ gs.text.length ∧
      (∃ c, gs.text.get? (gs.get_break_index i W - 1) = some c ∧
        (c = '\n' ∨ c = ' ' ∨ c = Char.ofNat 0x200b)) ∧
      ∃ v, gs.get_subwidth (i : Int) (gs.get_break_index i W : Int) = some v ∧ v ≤ W) := by
  constructor
  · intro h
    simp [GlyphString.get_break_index, h]
  · intro hne
    obtain ⟨j, hjlt, he, hc, w, hw, hwle⟩ := get_break_index_spec gs i W hlen hne
    have hi : i ≠ 0 → i - 1 < gs.cumulative_advance.length := by omega
    have hr : gs.cumulative_advance.get? (gs.get_break_index i W - 1) = some w := by
      rw [he]
      simpa using hw
    have h1 : (1 : Nat) ≤ gs.get_break_index i W := by omega
    refine ⟨by omega, by omega, ?_, ?_⟩
    · rw [he]
      simpa using hc
    · refine ⟨w - (if i ≠ 0 then gs.cumulative_advance.getD (i - 1) 0 else 0), ?_, ?_⟩
      · exact get_subwidth_eval gs i (gs.get_break_index i W) w hr h1 hi
      · split_ifs at hwle ⊢ <;> omega

theorem break_index_amended_witness :
    gsSpaceB.cumulative_advance.length = gsSpaceB.text.length ∧
    ((gsSpaceB.text.length ≤ 0 → gsSpaceB.get_break_index 0 100 = 0) ∧
    (gsSpaceB.get_break_index 0 100 ≠ 0 →
      0 < gsSpaceB.get_break_index 0 100 ∧
      gsSpaceB.get_break_index 0 100 ≤ gsSpaceB.text.length ∧
      (∃ c, gsSpaceB.text.get? (gsSpaceB.get_break_index 0 100 - 1) = some c ∧
        (c = '\n' ∨ c = ' ' ∨ c = Char.ofNat 0x200b)) ∧
      ∃ v, gsSpaceB.get_subwidth ((0 : Nat) : Int)
          ((gsSpaceB.get_break_index 0 100 : Nat) : Int) = some v ∧ v ≤ 100)) :=
  ⟨by decide, break_index_amended gsSpaceB 0 100 (by decide)⟩

/-- The spec scenario glyph string: "AB" with advances 10 and 12, one
texture. -/
def gsAB : GlyphString :=
  GlyphString.init ['A', 'B']
    [⟨10, 0, 0, 0, 5, 5, (0, 0), (0, 1), (1, 1), (1, 0)⟩,
     ⟨12, 0, 0, 0, 5, 5, (0, 0), (0, 1), (1, 1), (1, 0)⟩] 0 0

/-- C5 counterexample: `get_subwidth(0, 0)` on the non-empty glyph string
"AB" returns a value (`some 22`, the full width, via Python's negative
indexing `cumulative_advance[-1]`) instead of signalling an
invalid-argument error. -/
theorem get_subwidth_degenerate_returns :
    gsAB.get_subwidth 0 0 = some 22 ∧ gsAB.text ≠ [] := by decide

/-- C5 amended: `get_subwidth(0, 0)` on any non-empty `GlyphString` does
not fail fast: Python's negative indexing makes `cumulative_advance[-1]`
the last entry, so the call silently returns the full string width. -/
theorem get_subwidth_degenerate_amended (text : List Char) (glyphs : List Glyph)
    (x y : Int) (hne : glyphs ≠ []) :
    (GlyphString.init text glyphs x y).get_subwidth 0 0
      = some (GlyphString.init text glyphs x y).width := by
  have hlen := init_cum_length text glyphs x y
  have hpos : 0 < glyphs.length := List.length_pos.mpr hne
  have hget : (GlyphString.init text glyphs x y).cumulative_advance.get?
      (glyphs.length - 1)
      = some ((GlyphString.init text glyphs x y).width) := by
    rw [init_cum, init_width, cum_last_get? glyphs x hne]
  have hpy : pyGet (GlyphString.init text glyphs x y).cumulative_advance ((0 : Int) - 1)
      = some ((GlyphString.init text glyphs x y).width) := by
    have h0 : ¬ (0 : Int) ≤ (0 : Int) - 1 := by omega
    have h1 : (0 : Int) ≤
        ((GlyphString.init text glyphs x y).cumulative_advance.length : Int) + ((0 : Int) - 1) := by
      omega
    have ht : (((GlyphString.init text glyphs x y).cumulative_advance.length : Int)
        + ((0 : Int) - 1)).toNat = glyphs.length - 1 := by
      omega
    rw [pyGet, if_neg h0, if_pos h1, ht, hget]
  rw [show ((0 : Int) - 1) = (-1 : Int) by omega] at hpy
  simp [GlyphString.get_subwidth, hpy]

theorem get_subwidth_degenerate_amended_witness :
    ([⟨10, 0, 0, 0, 5, 5, (0, 0), (0, 1), (1, 1), (1, 0)⟩,
      ⟨12, 0, 0, 0, 5, 5, (0, 0), (0, 1), (1, 1), (1, 0)⟩] : List Glyph) ≠ [] ∧
    gsAB.get_subwidth 0 0 = some gsAB.width :=
  ⟨by decide,
    get_subwidth_degenerate_amended ['A', 'B']
      [⟨10, 0, 0, 0, 5, 5, (0, 0), (0, 1), (1, 1), (1, 0)⟩,
       ⟨12, 0, 0, 0, 5, 5, (0, 0), (0, 1), (1, 1), (1, 0)⟩] 0 0 (by decide)⟩

/-- C6: for glyphs with non-negative advances and the documented 1:1
text/glyph correspondence, the cumulative-advance table is non-decreasing,
has one entry per character, ends at the stored total width, and
`get_subwidth(0, n)` returns the total width for non-empty text of
length `n`. -/
theorem cumulative_advance_invariants (text : List Char) (glyphs : List Glyph) (x y : Int)
    (hadv : ∀ g ∈ glyphs, 0 ≤ g.advance) (hlen : glyphs.length = text.length) :
    List.Chain' (· ≤ ·) (GlyphString.init text glyphs x y).cumulative_advance ∧
    (GlyphString.init text glyphs x y).cumulative_advance.length = text.length ∧
    (text ≠ [] → (GlyphString.init text glyphs x y).cumulative_advance.getLast?
        = some (GlyphString.init text glyphs x y).width) ∧
    (text ≠ [] → (GlyphString.init text glyphs x y).get_subwidth 0 ((text.length : Nat) : Int)
        = some (GlyphString.init text glyphs x y).width) := by
  have hcum := init_cum text glyphs x y
  have hw := init_width text glyphs x y
  refine ⟨?_, ?_, ?_, ?_⟩
  · rw [hcum]
    exact (buildCumul_chain glyphs hadv x).1
  · rw [init_cum_length, hlen]
  · intro htne
    have hgne : glyphs ≠ [] := by
      intro h
      rw [h] at hlen
      exact htne (List.eq_nil_of_length_eq_zero hlen.symm)
    rw [hcum, hw, buildCumul_getLast glyphs hgne x]
  · intro htne
    have hgne : glyphs ≠ [] := by
      intro h
      rw [h] at hlen
      exact htne (List.eq_nil_of_length_eq_zero hlen.symm)
    have hpos : 0 < text.length := List.length_pos.mpr htne
    have hget : (GlyphString.init text glyphs x y).cumulative_advance.get?
        (text.length - 1) = some ((GlyphString.init text glyphs x y).width) := by
      rw [hcum, hw, ← hlen, cum_last_get? glyphs x hgne]
    have hpy : pyGet (GlyphString.init text glyphs x y).cumulative_advance
        (((text.length : Nat) : Int) - 1)
        = some ((GlyphString.init text glyphs x y).width) := by
      have h0 : (0 : Int) ≤ ((text.length : Nat) : Int) - 1 := by omega
      have ht : (((text.length : Nat) : Int) - 1).toNat = text.length - 1 := by omega
      rw [pyGet, if_pos h0, ht, hget]
    simp [GlyphString.get_subwidth, hpy]

theorem cumulative_advance_invariants_witness :
    (∀ g ∈ ([⟨10, 0, 0, 0, 5, 5, (0, 0), (0, 1), (1, 1), (1, 0)⟩,
      ⟨12, 0, 0, 0, 5, 5, (0, 0), (0, 1), (1, 1), (1, 0)⟩] : List Glyph), 0 ≤ g.advance) ∧
    (List.Chain' (· ≤ ·) gsAB.cumulative_advance ∧
      gsAB.cumulative_advance.length = (['A', 'B'] : List Char).length ∧
      ((['A', 'B'] : List Char) ≠ [] →
        gsAB.cumulative_advance.getLast? = some gsAB.width) ∧
      ((['A', 'B'] : List Char) ≠ [] →
        gsAB.get_subwidth 0 (((['A', 'B'] : List Char).length : Nat) : Int)
          = some gsAB.width)) :=
  ⟨by decide,
    cumulative_advance_invariants ['A', 'B']
      [⟨10, 0, 0, 0, 5, 5, (0, 0), (0, 1), (1, 1), (1, 0)⟩,
       ⟨12, 0, 0, 0, 5, 5, (0, 0), (0, 1), (1, 1), (1, 0)⟩] 0 0 (by decide) (by decide)⟩

/-- C7: the texture runs recorded in `states` partition the glyph indices
`0, ..., len(glyphs)-1` in order (their index ranges concatenate exactly to
`range(len(text))`), and the interleaved vertex array holds exactly 20
floats per glyph.  Holds for every glyph list with the documented 1:1
text/glyph correspondence, including the empty one. -/
theorem texture_runs_partition (text : List Char) (glyphs : List Glyph) (x y : Int)
    (hlen : glyphs.length = text.length) :
    ((GlyphString.init text glyphs x y).states.map
        (fun r => List.range' r.start r.len)).flatten = List.range text.length ∧
    (GlyphString.init text glyphs x y).array.length = 20 * text.length := by
  constructor
  · have h := buildLoop_states_join y glyphs x none 0 0 0 rfl
    show ((buildLoop y glyphs x none 0 0 0).2.1.map
        (fun r => List.range' r.start r.len)).flatten = List.range text.length
    rw [h, List.range_eq_range', hlen, Nat.zero_add]
  · show (buildLoop y glyphs x none 0 0 0).1.length = 20 * text.length
    rw [buildLoop_arr, buildArr_length, hlen]

/-- Concrete instance for `texture_runs_partition`: three glyphs over two
textures, giving runs `(0, 2, tex 0)` and `(2, 1, tex 1)`. -/
def gsMixedTex : GlyphString :=
  GlyphString.init ['a', 'b', 'c']
    [⟨1, 0, 0, 0, 5, 5, (0, 0), (0, 1), (1, 1), (1, 0)⟩,
     ⟨2, 0, 0, 0, 5, 5, (0, 0), (0, 1), (1, 1), (1, 0)⟩,
     ⟨3, 1, 0, 0, 5, 5, (0, 0), (0, 1), (1, 1), (1, 0)⟩] 0 0

theorem texture_runs_partition_witness :
    ([⟨1, 0, 0, 0, 5, 5, (0, 0), (0, 1), (1, 1), (1, 0)⟩,
      ⟨2, 0, 0, 0, 5, 5, (0, 0), (0, 1), (1, 1), (1, 0)⟩,
      ⟨3, 1, 0, 0, 5, 5, (0, 0), (0, 1), (1, 1), (1, 0)⟩] : List Glyph).length
        = (['a', 'b', 'c'] : List Char).length ∧
    ((gsMixedTex.states.map (fun r => List.range' r.start r.len)).flatten
        = List.range (['a', 'b', 'c'] : List Char).length ∧
      gsMixedTex.array.length = 20 * (['a', 'b', 'c'] : List Char).length) :=
  ⟨by decide,
    texture_runs_partition ['a', 'b', 'c']
      [⟨1, 0, 0, 0, 5, 5, (0, 0), (0, 1), (1, 1), (1, 0)⟩,
       ⟨2, 0, 0, 0, 5, 5, (0, 0), (0, 1), (1, 1), (1, 0)⟩,
       ⟨3, 1, 0, 0, 5, 5, (0, 0), (0, 1), (1, 1), (1, 0)⟩] 0 0 (by decide)⟩

/-!
## Caret (`pyglet/text/caret.py`)

The caret collaborates with a layout and a document.  The document
(`pyglet.text.document`) is not part of this repository's sources; its two
mutators used here are modelled from the spec (§6): `InsertText` and
`DeleteText` splice the text, and we additionally log each `insert_text`
call (position, inserted text, style attributes) so theorems can speak
about the arguments the caret passes.  Layout geometry queries, the blink
timer and the caret's GL vertex list are visual concerns not touched by the
claims under study and are left out of the state.
-/

/-- Modelled from the spec: the document collaborator (spec §6), exposing
mutable `text`, `InsertText(index, text, styleAttrs)` and
`DeleteText(start, end)`.  `inserts` logs the `insert_text` calls. -/
structure Document where
  text : List Char
  inserts : List (Int × List Char × List (String × Int))
deriving DecidableEq

/-- Modelled from the spec: `DeleteText(start, end)` removes the character
range `[start, end)`. -/
def Document.delete_text (d : Document) (a b : Int) : Document :=
  { d with text := d.text.take a.toNat ++ d.text.drop b.toNat }

/-- Modelled from the spec: `InsertText(index, text, styleAttrs)` splices
`text` in at `index`; the call is also logged. -/
def Document.insert_text (d : Document) (i : Int) (t : List Char)
    (attrs : List (String × Int)) : Document :=
  { text := d.text.take i.toNat ++ t ++ d.text.drop i.toNat,
    inserts := d.inserts ++ [(i, t, attrs)] }

/-- The caret state the studied claims touch: `_position`, `_mark`, the
pending `_next_attributes`, and the document.  Visual state (vertex list,
blink flags, ideal x) is orthogonal to these claims. -/
structure CaretState where
  _position : Int
  _mark : Option Int
  _next_attributes : List (String × Int)
  document : Document
deriving DecidableEq

/-- The `position` property setter (caret.py lines 131-134): stores the
index, clears the pending attributes (and updates the visual caret, not
modelled). -/
def Caret.set_position (s : CaretState) (i : Int) : CaretState :=
  { s with _position := i, _next_attributes := [] }

/-- `Caret._delete_selection` (caret.py lines 239-244): delete
`[min(mark, position), max(mark, position))` from the document, collapse
`position` to the selection start, clear the mark. -/
def Caret.delete_selection (s : CaretState) : CaretState :=
  match s._mark with
  | none => s
  | some m =>
      { s with
        document := s.document.delete_text (min m s._position) (max m s._position),
        _position := min s._position m,
        _mark := none }

/-- `text.replace('\r', '\n')` on a list of characters. -/
def replaceCR (t : List Char) : List Char :=
  t.map fun c => if c = '\r' then '\n' else c

/-- `Caret.on_text` (caret.py lines 349-364): delete the selection if one
exists, normalise carriage returns, insert at the caret position with the
pending attributes, advance the position by the inserted length. -/
def Caret.on_text (s : CaretState) (t : List Char) : CaretState :=
  let s1 := if s._mark ≠ none then Caret.delete_selection s else s
  let t' := replaceCR t
  let s2 := { s1 with
    document := s1.document.insert_text s1._position t' s1._next_attributes }
  { s2 with _position := s2._position + t'.length }

/-- The text motions whose handling involves no layout-geometry query
(caret.py lines 366-435).  The remaining motions (UP/DOWN, line and word
jumps) go through the layout collaborator and are outside the studied
claims. -/
inductive Motion
  | left
  | right
  | backspace
  | delete
  | beginning_of_file
  | end_of_file
deriving DecidableEq

/-- `Caret.on_text_motion(motion, select)` (caret.py lines 366-435),
restricted to the layout-free motions: first the BACKSPACE/DELETE/clear-mark
chain, then the movement chain, then the unconditional clearing of the
pending attributes (`_nudge` touches only visibility). -/
def Caret.on_text_motion (s : CaretState) (motion : Motion) (select : Bool) : CaretState :=
  let s1 :=
    match motion with
    | .backspace =>
        if s._mark ≠ none then Caret.delete_selection s
        else if 0 < s._position then
          Caret.set_position
            { s with document := s.document.delete_text (s._position - 1) s._position }
            (s._position - 1)
        else s
    | .delete =>
        if s._mark ≠ none then Caret.delete_selection s
        else if s._position < (s.document.text.length : Int) then
          { s with document := s.document.delete_text s._position (s._position + 1) }
        else s
    | _ => if s._mark ≠ none ∧ ¬ select then { s with _mark := none } else s
  let s2 :=
    match motion with
    | .left => Caret.set_position s1 (max 0 (s1._position - 1))
    | .right => Caret.set_position s1 (min ((s1.document.text.length : Nat) : Int) (s1._position + 1))
    | .beginning_of_file => Caret.set_position s1 0
    | .end_of_file => Caret.set_position s1 ((s1.document.text.length : Nat) : Int)
    | _ => s1
  { s2 with _next_attributes := [] }

/-- The click actions `on_mouse_press` can dispatch. -/
inductive ClickAction
  | move_to_point
  | select_word
  | select_paragraph
  | nothing
deriving DecidableEq

/-- `Caret.on_mouse_press` (caret.py lines 461-490), abstracted over the
current time `t` (both `time.time()` calls are modelled as the same
instant): returns the stored click count, the stored click time and the
dispatched action.  A count reaching 3 dispatches select-paragraph and is
reset to 0. -/
def Caret.on_mouse_press (click_count : Nat) (click_time t : ℚ) :
    Nat × ℚ × ClickAction :=
  let count := if t - click_time < 1/4 then click_count + 1 else 1
  let action :=
    if count = 1 then ClickAction.move_to_point
    else if count = 2 then ClickAction.select_word
    else if count = 3 then ClickAction.select_paragraph
    else ClickAction.nothing
  (if count = 3 then 0 else count, t, action)

/-- C3: a press increments the stored click count when the elapsed time
since the previous press is under 0.25 s and otherwise resets it to 1;
reaching the transient count 3 dispatches select-paragraph and stores 0, so
rapid presses starting from count 0 store 1, 2, 0 (via 3) and a fourth
rapid press restarts at 1. -/
theorem triple_click_cycle (c : Nat) (ct tg : ℚ) (ct0 t1 t2 t3 t4 : ℚ)
    (h2 : t2 - t1 < 1/4) (h3 : t3 - t2 < 1/4) (h4 : t4 - t3 < 1/4) :
    (tg - ct < 1/4 →
      (Caret.on_mouse_press c ct tg).1 = if c + 1 = 3 then 0 else c + 1) ∧
    (¬ (tg - ct < 1/4) → (Caret.on_mouse_press c ct tg).1 = 1) ∧
    (Caret.on_mouse_press 0 ct0 t1).1 = 1 ∧
    (Caret.on_mouse_press 0 ct0 t1).2.1 = t1 ∧
    (Caret.on_mouse_press 0 ct0 t1).2.2 = ClickAction.move_to_point ∧
    Caret.on_mouse_press 1 t1 t2 = (2, t2, ClickAction.select_word) ∧
    Caret.on_mouse_press 2 t2 t3 = (0, t3, ClickAction.select_paragraph) ∧
    Caret.on_mouse_press 0 t3 t4 = (1, t4, ClickAction.move_to_point) := by
  rw [one_div] at h2 h3 h4
  refine ⟨?_, ?_, ?_, ?_, ?_, ?_, ?_, ?_⟩
  · intro h
    rw [one_div] at h
    simp [Caret.on_mouse_press, h, h.not_le]
  · intro h
    rw [one_div] at h
    simp [Caret.on_mouse_press, h]
  · by_cases hc : t1 - ct0 < 1/4
    · rw [one_div] at hc
      simp [Caret.on_mouse_press, hc]
    · rw [one_div] at hc
      simp [Caret.on_mouse_press, hc]
  · rfl
  · by_cases hc : t1 - ct0 < 1/4
    · rw [one_div] at hc
      simp [Caret.on_mouse_press, hc, hc.not_le]
    · rw [one_div] at hc
      simp [Caret.on_mouse_press, hc]
  · simp [Caret.on_mouse_press, h2, h2.not_le]
  · simp [Caret.on_mouse_press, h3, h3.not_le]
  · simp [Caret.on_mouse_press, h4, h4.not_le]

theorem triple_click_cycle_witness :
    ((11 : ℚ)/10 - 1 < 1/4) ∧ ((12 : ℚ)/10 - 11/10 < 1/4) ∧
    ((13 : ℚ)/10 - 12/10 < 1/4) ∧
    (((5 : ℚ) - 0 < 1/4 →
        (Caret.on_mouse_press 2 0 5).1 = if 2 + 1 = 3 then 0 else 2 + 1) ∧
      (¬ ((5 : ℚ) - 0 < 1/4) → (Caret.on_mouse_press 2 0 5).1 = 1) ∧
      (Caret.on_mouse_press 0 0 1).1 = 1 ∧
      (Caret.on_mouse_press 0 0 1).2.1 = 1 ∧
      (Caret.on_mouse_press 0 0 1).2.2 = ClickAction.move_to_point ∧
      Caret.on_mouse_press 1 1 (11/10) = (2, 11/10, ClickAction.select_word) ∧
      Caret.on_mouse_press 2 (11/10) (12/10) = (0, 12/10, ClickAction.select_paragraph) ∧
      Caret.on_mouse_press 0 (12/10) (13/10) = (1, 13/10, ClickAction.move_to_point)) :=
  ⟨by norm_num, by norm_num, by norm_num,
    triple_click_cycle 2 0 5 0 1 (11/10) (12/10) (13/10)
      (by norm_num) (by norm_num) (by norm_num)⟩

/-- C8: LEFT moves the caret position one left, clamped at 0 (so LEFT at
position 0 stays at 0), and RIGHT moves it one right, clamped at the
document length; under the caret invariant `0 ≤ position ≤ len(text)` the
result stays in `[0, len(text)]`. -/
theorem motion_left_right_clamped (s : CaretState) (select : Bool)
    (h0 : 0 ≤ s._position) (h1 : s._position ≤ ((s.document.text.length : Nat) : Int)) :
    (Caret.on_text_motion s .left select)._position = max 0 (s._position - 1) ∧
    (Caret.on_text_motion s .right select)._position
      = min ((s.document.text.length : Nat) : Int) (s._position + 1) ∧
    (0 ≤ (Caret.on_text_motion s .left select)._position ∧
      (Caret.on_text_motion s .left select)._position
        ≤ ((s.document.text.length : Nat) : Int)) ∧
    (0 ≤ (Caret.on_text_motion s .right select)._position ∧
      (Caret.on_text_motion s .right select)._position
        ≤ ((s.document.text.length : Nat) : Int)) ∧
    (s._position = 0 → (Caret.on_text_motion s .left select)._position = 0) := by
  have hl : (Caret.on_text_motion s .left select)._position = max 0 (s._position - 1) := by
    simp only [Caret.on_text_motion, Caret.set_position]
    split_ifs <;> rfl
  have hr : (Caret.on_text_motion s .right select)._position
      = min ((s.document.text.length : Nat) : Int) (s._position + 1) := by
    simp only [Caret.on_text_motion, Caret.set_position]
    split_ifs <;> rfl
  refine ⟨hl, hr, ?_, ?_, ?_⟩
  · rw [hl, max_def]
    split_ifs <;> omega
  · rw [hr, min_def]
    split_ifs <;> omega
  · intro hz
    rw [hl, hz, max_def]
    split_ifs <;> omega

theorem motion_left_right_clamped_witness :
    (0 : Int) ≤ (⟨0, none, [], ⟨['h', 'i'], []⟩⟩ : CaretState)._position ∧
    (⟨0, none, [], ⟨['h', 'i'], []⟩⟩ : CaretState)._position
      ≤ (((⟨0, none, [], ⟨['h', 'i'], []⟩⟩ : CaretState).document.text.length : Nat) : Int) ∧
    ((Caret.on_text_motion ⟨0, none, [], ⟨['h', 'i'], []⟩⟩ .left false)._position
        = max 0 ((⟨0, none, [], ⟨['h', 'i'], []⟩⟩ : CaretState)._position - 1) ∧
      (Caret.on_text_motion ⟨0, none, [], ⟨['h', 'i'], []⟩⟩ .right false)._position
        = min (((⟨0, none, [], ⟨['h', 'i'], []⟩⟩ : CaretState).document.text.length : Nat) : Int)
            ((⟨0, none, [], ⟨['h', 'i'], []⟩⟩ : CaretState)._position + 1) ∧
      (0 ≤ (Caret.on_text_motion ⟨0, none, [], ⟨['h', 'i'], []⟩⟩ .left false)._position ∧
        (Caret.on_text_motion ⟨0, none, [], ⟨['h', 'i'], []⟩⟩ .left false)._position
          ≤ (((⟨0, none, [], ⟨['h', 'i'], []⟩⟩ : CaretState).document.text.length : Nat) : Int)) ∧
      (0 ≤ (Caret.on_text_motion ⟨0, none, [], ⟨['h', 'i'], []⟩⟩ .right false)._position ∧
        (Caret.on_text_motion ⟨0, none, [], ⟨['h', 'i'], []⟩⟩ .right false)._position
          ≤ (((⟨0, none, [], ⟨['h', 'i'], []⟩⟩ : CaretState).document.text.length : Nat) : Int)) ∧
      ((⟨0, none, [], ⟨['h', 'i'], []⟩⟩ : CaretState)._position = 0 →
        (Caret.on_text_motion ⟨0, none, [], ⟨['h', 'i'], []⟩⟩ .left false)._position = 0)) :=
  ⟨by decide, by decide,
    motion_left_right_clamped ⟨0, none, [], ⟨['h', 'i'], []⟩⟩ false (by decide) (by decide)⟩

/-- C10: `on_text(t)` first deletes the selection when a mark is set
(collapsing the position to the selection start), then performs exactly one
`insert_text` call at the collapsed position with `t`'s carriage returns
replaced by newlines and with the pending style attributes, and finally
advances the position by exactly `len(t)`; afterwards no selection
remains. -/
theorem on_text_insert (s : CaretState) (t : List Char) :
    (s._mark = none →
      (Caret.on_text s t)._position = s._position + t.length ∧
      (Caret.on_text s t).document.inserts
        = s.document.inserts ++ [(s._position, replaceCR t, s._next_attributes)] ∧
      (Caret.on_text s t).document.text
        = s.document.text.take s._position.toNat ++ replaceCR t
            ++ s.document.text.drop s._position.toNat ∧
      (Caret.on_text s t)._mark = none) ∧
    (∀ m, s._mark = some m →
      (Caret.on_text s t)._position = min s._position m + t.length ∧
      (Caret.on_text s t).document.inserts
        = (s.document.delete_text (min m s._position) (max m s._position)).inserts
            ++ [(min s._position m, replaceCR t, s._next_attributes)] ∧
      (Caret.on_text s t).document.text
        = ((s.document.delete_text (min m s._position) (max m s._position)).text.take
              (min s._position m).toNat) ++ replaceCR t
            ++ ((s.document.delete_text (min m s._position) (max m s._position)).text.drop
              (min s._position m).toNat) ∧
      (Caret.on_text s t)._mark = none) := by
  have hlen : (replaceCR t).length = t.length := List.length_map t _
  constructor
  · intro hm
    simp [Caret.on_text, hm, Document.insert_text, hlen]
  · intro m hm
    simp [Caret.on_text, hm, Caret.delete_selection, Document.insert_text, hlen]

theorem on_text_insert_witness :
    ((⟨1, some 4, [("bold", 1)], ⟨['h', 'e', 'l', 'l', 'o'], []⟩⟩ : CaretState)._mark = none →
      (Caret.on_text ⟨1, some 4, [("bold", 1)], ⟨['h', 'e', 'l', 'l', 'o'], []⟩⟩
          ['X', '\r', 'Y'])._position
        = (⟨1, some 4, [("bold", 1)], ⟨['h', 'e', 'l', 'l', 'o'], []⟩⟩ : CaretState)._position
            + (['X', '\r', 'Y'] : List Char).length ∧
      (Caret.on_text ⟨1, some 4, [("bold", 1)], ⟨['h', 'e', 'l', 'l', 'o'], []⟩⟩
          ['X', '\r', 'Y']).document.inserts
        = (⟨1, some 4, [("bold", 1)], ⟨['h', 'e', 'l', 'l', 'o'], []⟩⟩ :
            CaretState).document.inserts
            ++ [((⟨1, some 4, [("bold", 1)], ⟨['h', 'e', 'l', 'l', 'o'], []⟩⟩ :
                CaretState)._position, replaceCR ['X', '\r', 'Y'], [("bold", 1)])] ∧
      (Caret.on_text ⟨1, some 4, [("bold", 1)], ⟨['h', 'e', 'l', 'l', 'o'], []⟩⟩
          ['X', '\r', 'Y']).document.text
        = (⟨1, some 4, [("bold", 1)], ⟨['h', 'e', 'l', 'l', 'o'], []⟩⟩ :
            CaretState).document.text.take
              (⟨1, some 4, [("bold", 1)], ⟨['h', 'e', 'l', 'l', 'o'], []⟩⟩ :
                CaretState)._position.toNat
            ++ replaceCR ['X', '\r', 'Y']
            ++ (⟨1, some 4, [("bold", 1)], ⟨['h', 'e', 'l', 'l', 'o'], []⟩⟩ :
              CaretState).document.text.drop
                (⟨1, some 4, [("bold", 1)], ⟨['h', 'e', 'l', 'l', 'o'], []⟩⟩ :
                  CaretState)._position.toNat ∧
      (Caret.on_text ⟨1, some 4, [("bold", 1)], ⟨['h', 'e', 'l', 'l', 'o'], []⟩⟩
          ['X', '\r', 'Y'])._mark = none) ∧
    (∀ m, (⟨1, some 4, [("bold", 1)], ⟨['h', 'e', 'l', 'l', 'o'], []⟩⟩ :
        CaretState)._mark = some m →
      (Caret.on_text ⟨1, some 4, [("bold", 1)], ⟨['h', 'e', 'l', 'l', 'o'], []⟩⟩
          ['X', '\r', 'Y'])._position
        = min (⟨1, some 4, [("bold", 1)], ⟨['h', 'e', 'l', 'l', 'o'], []⟩⟩ :
            CaretState)._position m + (['X', '\r', 'Y'] : List Char).length ∧
      (Caret.on_text ⟨1, some 4, [("bold", 1)], ⟨['h', 'e', 'l', 'l', 'o'], []⟩⟩
          ['X', '\r', 'Y']).document.inserts
        = ((⟨1, some 4, [("bold", 1)], ⟨['h', 'e', 'l', 'l', 'o'], []⟩⟩ :
            CaretState).document.delete_text
              (min m (⟨1, some 4, [("bold", 1)], ⟨['h', 'e', 'l', 'l', 'o'], []⟩⟩ :
                CaretState)._position)
              (max m (⟨1, some 4, [("bold", 1)], ⟨['h', 'e', 'l', 'l', 'o'], []⟩⟩ :
                CaretState)._position)).inserts
            ++ [(min (⟨1, some 4, [("bold", 1)], ⟨['h', 'e', 'l', 'l', 'o'], []⟩⟩ :
                CaretState)._position m, replaceCR ['X', '\r', 'Y'], [("bold", 1)])] ∧
      (Caret.on_text ⟨1, some 4, [("bold", 1)], ⟨['h', 'e', 'l', 'l', 'o'], []⟩⟩
          ['X', '\r', 'Y']).document.text
        = (((⟨1, some 4, [("bold", 1)], ⟨['h', 'e', 'l', 'l', 'o'], []⟩⟩ :
            CaretState).document.delete_text
              (min m (⟨1, some 4, [("bold", 1)], ⟨['h', 'e', 'l', 'l', 'o'], []⟩⟩ :
                CaretState)._position)
              (max m (⟨1, some 4, [("bold", 1)], ⟨['h', 'e', 'l', 'l', 'o'], []⟩⟩ :
                CaretState)._position)).text.take
              (min (⟨1, some 4, [("bold", 1)], ⟨['h', 'e', 'l', 'l', 'o'], []⟩⟩ :
                CaretState)._position m).toNat)
            ++ replaceCR ['X', '\r', 'Y']
            ++ (((⟨1, some 4, [("bold", 1)], ⟨['h', 'e', 'l', 'l', 'o'], []⟩⟩ :
              CaretState).document.delete_text
                (min m (⟨1, some 4, [("bold", 1)], ⟨['h', 'e', 'l', 'l', 'o'], []⟩⟩ :
                  CaretState)._position)
                (max m (⟨1, some 4, [("bold", 1)], ⟨['h', 'e', 'l', 'l', 'o'], []⟩⟩ :
                  CaretState)._position)).text.drop
                (min (⟨1, some 4, [("bold", 1)], ⟨['h', 'e', 'l', 'l', 'o'], []⟩⟩ :
                  CaretState)._position m).toNat) ∧
      (Caret.on_text ⟨1, some 4, [("bold", 1)], ⟨['h', 'e', 'l', 'l', 'o'], []⟩⟩
          ['X', '\r', 'Y'])._mark = none) :=
  on_text_insert ⟨1, some 4, [("bold", 1)], ⟨['h', 'e', 'l', 'l', 'o'], []⟩⟩ ['X', '\r', 'Y']

/-!
## Text (`pyglet/font/__init__.py`, class `Text`)

The font provider is an external collaborator; `get_glyphs` is modelled
from the spec (§6) as a per-character table lookup, which gives the one
glyph per character the `Text` code relies on.  `Text.draw`'s GL calls are
modelled by the per-line data they receive: the translated x origin and the
glyph sub-range passed to `GlyphString.draw`.  A `none` result models a
raised exception.
-/

/-- Modelled from the spec: the font provider (spec §6),
`GetGlyphs(text) → ordered sequence of Glyph` plus `ascent`/`descent`.
Each character resolves through a lookup table (with a default), yielding
one glyph per character. -/
structure Font where
  ascent : Int
  descent : Int
  table : List (Char × Glyph)
  default_glyph : Glyph
deriving DecidableEq

/-- Modelled from the spec: `get_glyphs` returns one shaped glyph per
character of `text`, in order. -/
def Font.get_glyphs (f : Font) (text : List Char) : List Glyph :=
  text.map fun c => ((f.table.find? (fun p => p.1 == c)).map Prod.snd).getD f.default_glyph

/-- Horizontal alignment constants of `Text`. -/
inductive HAlign
  | left
  | center
  | right
deriving DecidableEq

/-- Vertical alignment constants of `Text`. -/
inductive VAlign
  | bottom
  | baseline
  | center
  | top
deriving DecidableEq

/-- The state of a `Text` object.  `z` and `color` are carried unchanged
into GL calls and do not interact with the studied claims. -/
structure TextState where
  font : Font
  _text : List Char
  x : Int
  y : Int
  leading : Int
  _layout_width : Option Int
  _halign : HAlign
  _valign : VAlign
  _dirty : Bool
  lines : List (Nat × Nat)
  line_height : Int
  _text_width : Int
  _text_height : Int
  _glyph_string : GlyphString
deriving DecidableEq

/-- `Text.__init__` (source lines 282-320): stores the raw attributes and
marks the object dirty.  The derived fields hold placeholder values until
the first `_clean`, exactly as the Python object leaves them unset. -/
def Text.init (font : Font) (text : List Char) (x y : Int) (width : Option Int)
    (halign : HAlign) (valign : VAlign) : TextState :=
  { font := font, _text := text, x := x, y := y, leading := 0,
    _layout_width := width, _halign := halign, _valign := valign,
    _dirty := true, lines := [], line_height := 0, _text_width := 0,
    _text_height := 0, _glyph_string := GlyphString.init [] [] 0 0 }

/-- The unwrapped-layout loop of `Text._clean` (source lines 330-342):
split on literal newlines, recording each line span and the running maximum
line width.  `fuel` bounds the recursion; `text.length + 1` always
suffices because the scan position `i` strictly increases.  The
`get_subwidth` reads are always in range here (the working text is
non-empty), so `getD 0` never yields its default. -/
def splitNewlines (gs : GlyphString) (text : List Char) :
    Nat → Nat → Int → List (Nat × Nat) × Int
  | 0, _, tw => ([], tw)
  | fuel + 1, i, tw =>
      match (text.drop i).findIdx? (· == '\n') with
      | some k =>
          let e := i + k
          let tw' := max tw ((gs.get_subwidth (i : Int) (e : Int)).getD 0)
          let r := splitNewlines gs text fuel (e + 1) tw'
          ((i, e) :: r.1, r.2)
      | none =>
          if text.length ≠ i then
            ([(i, text.length)],
              max tw ((gs.get_subwidth (i : Int) ((text.length : Nat) : Int)).getD 0))
          else ([], tw)

/-- The wrapped-layout loop of `Text._clean` (source lines 344-354):
repeatedly take the next break index, trimming a trailing newline from the
recorded span; stop when the break no longer advances or the text is
exhausted, then append the final partial line when more than the appended
space remains.  `fuel = text.length + 2` always suffices because `i`
strictly increases while the loop runs. -/
def wrapLines (gs : GlyphString) (text : List Char) (w : Int) :
    Nat → Nat → Nat → List (Nat × Nat)
  | 0, _, _ => []
  | fuel + 1, i, bp =>
      if i < text.length ∧ i < bp then
        (if text.getD (bp - 1) ' ' = '\n' then (i, bp - 1) else (i, bp)) ::
          wrapLines gs text w fuel bp (gs.get_break_index bp w)
      else
        if i + 1 < text.length then [(i, text.length)] else []

/-- `Text._clean` (source lines 322-359): append the working space, shape
the glyph string, compute the line spans (wrapped or unwrapped), the line
height and the text height, and clear the dirty flag. -/
def TextState.clean (s : TextState) : TextState :=
  let text := s._text ++ [' ']
  let glyphs := s.font.get_glyphs text
  let gs := GlyphString.init text glyphs 0 0
  let r :=
    match s._layout_width with
    | none => splitNewlines gs text (text.length + 1) 0 0
    | some w =>
        (wrapLines gs text w (text.length + 2) 0 (gs.get_break_index 0 w),
          s._text_width)
  let lh := s.font.ascent - s.font.descent + s.leading
  { s with
    _glyph_string := gs,
    lines := r.1,
    _text_width := r.2,
    line_height := lh,
    _text_height := lh * r.1.length,
    _dirty := false }

/-- The per-line render data of `Text.draw` (source lines 374-398) on an
already-clean state: the vertical origin selected by `valign` and, for each
line span, the translated x (offset by `halign` against `_layout_width`)
and the sub-range handed to `GlyphString.draw`.  Computing the CENTER or
RIGHT offset with `_layout_width = None` is a Python `TypeError`
(`none`). -/
def TextState.drawOutput (s : TextState) : Option (Int × List (Int × Nat × Nat)) := do
  let y := s.y +
    (match s._valign with
     | .bottom => s._text_height - s.font.ascent
     | .center => s._text_height.fdiv 2 - s.font.ascent
     | .top => - s.font.ascent
     | .baseline => 0)
  let louts ← s.lines.mapM (fun se => do
    let w := (s._glyph_string.get_subwidth ((se.1 : Nat) : Int) ((se.2 : Nat) : Int)).getD 0
    let x ←
      match s._halign with
      | .left => some s.x
      | .right => do
          let lw ← s._layout_width
          pure (s.x + lw - w)
      | .center => do
          let lw ← s._layout_width
          pure (s.x + lw.fdiv 2 - w.fdiv 2)
    pure (x, se.1, se.2))
  pure (y, louts)

/-- `Text.draw` (source lines 361-400): recompute the layout when dirty,
then emit the render data.  The state is returned alongside so laziness
(`_dirty`) is observable. -/
def TextState.draw (s : TextState) : Option (TextState × Int × List (Int × Nat × Nat)) :=
  let s1 := if s._dirty then s.clean else s
  s1.drawOutput.map fun o => (s1, o)

/-- A plain font for concrete `Text` instances: ascent 12, descent -3,
every character shaped to the same advance-10 glyph. -/
def fontPlain : Font :=
  ⟨12, -3, [], ⟨10, 0, 0, 0, 5, 5, (0, 0), (0, 1), (1, 1), (1, 0)⟩⟩

/-- A `Text` with `halign=CENTER` and no wrap width set. -/
def textCenterNoWidth : TextState :=
  Text.init fontPlain ['a'] 0 0 none .center .baseline

/-- A `Text` with `halign=RIGHT` and no wrap width set. -/
def textRightNoWidth : TextState :=
  Text.init fontPlain ['a'] 0 0 none .right .baseline

/-- C4: `Text.draw` computes the CENTER/RIGHT horizontal offset directly
from `self._layout_width`; when no width was ever set this is `None`, so
the offset arithmetic raises a `TypeError` (modelled as `none`) instead of
falling back to the line's own width.  The claim describes the intended
behaviour; the code crashes at this input. -/
theorem draw_unwrapped_center_right_raises :
    textCenterNoWidth.draw = none ∧ textRightNoWidth.draw = none :=
  ⟨by decide, by decide⟩

/-- C9: a successful `draw` leaves the object clean (`_dirty = false`), and
drawing again without any intervening mutation performs no recomputation
and produces the identical state and per-line geometry. -/
theorem draw_idempotent (s s1 : TextState) (yo : Int) (louts : List (Int × Nat × Nat))
    (h : s.draw = some (s1, yo, louts)) :
    s1._dirty = false ∧ s1.draw = some (s1, yo, louts) := by
  obtain ⟨o, ho, heq⟩ := Option.map_eq_some'.mp h
  have h1 : (if s._dirty then s.clean else s) = s1 := congrArg Prod.fst heq
  have h2 : o = (yo, louts) := congrArg Prod.snd heq
  subst h2
  have hdirty : s1._dirty = false := by
    rw [← h1]
    by_cases hd : s._dirty = true
    · rw [if_pos hd]
      rfl
    · rw [if_neg hd]
      simpa using hd
  refine ⟨hdirty, ?_⟩
  have hdraw : s1.draw = s1.drawOutput.map fun o => (s1, o) := by
    show (if s1._dirty then s1.clean else s1).drawOutput.map _ = _
    rw [hdirty]
    simp
  rw [hdraw, ← h1]
  simp [ho]

/-- A clean concrete `Text` for the idempotence witness. -/
def textC9 : TextState := Text.init fontPlain ['h', 'i'] 0 0 none .left .baseline

/-- The result of the first `draw` on `textC9`. -/
def textC9res : TextState × Int × List (Int × Nat × Nat) :=
  textC9.draw.getD (textC9, 0, [])

theorem draw_idempotent_witness :
    textC9.draw = some (textC9res.1, textC9res.2.1, textC9res.2.2) ∧
    (textC9res.1._dirty = false ∧
      textC9res.1.draw = some (textC9res.1, textC9res.2.1, textC9res.2.2)) :=
  ⟨by decide, draw_idempotent textC9 textC9res.1 textC9res.2.1 textC9res.2.2 (by decide)⟩

end Pyglet
